import Mathlib

/-!
Verification development for the `grython` selector compiler and tree matcher
(`grython/core.py`).  The compiler (`Pattern.__parse` / `Pattern.parse`) is
embedded faithfully, including the regex scanner built from the five
alternatives `attrs | class | id | name | rank` (tried in that order at each
position, as Python's `re` alternation does), the backreferenced optional
quotes, the lazy `.+?` value matcher, and the error behaviour of the
post-scan check.  The matcher (`Pattern.update`) is embedded both as a pure
recursive function and as an operational version in an exception monad in
which out-of-range list indexing is an explicit error.  The external
`find_all` capability (supplied by the markup library, not part of this
repository) is modelled from the specification's contract.  Character
classes are modelled over ASCII.
-/

/-- Python error kinds that the compiler in `core.py` can raise:
`TypeError` (non-string input), `ValueError` (illegal pattern, carrying the
span of the last successful sub-token match) and `AttributeError`
(raised when the code calls a method on an object lacking it, e.g.
`None.span()`). -/
inductive PyErr where
  | typeError
  | valueError (lo hi : Nat)
  | attributeError
deriving DecidableEq, Repr

/-- The single-quote character, written via its code point. -/
def squote : Char := Char.ofNat 39

def isQuote (c : Char) : Bool := c == squote || c == '"'

/-- ASCII model of the regex class `[\w-]`. -/
def isWordDash (c : Char) : Bool := c.isAlphanum || c == '_' || c == '-'

def digitsToNat (ds : List Char) : Nat :=
  ds.foldl (fun a c => a * 10 + (c.toNat - 48)) 0

/-- After the lazy value `.+?` has consumed some characters, test whether the
closing backreference `\4` (the optional quote) followed by `\]` matches
here; returns the rest after `\]`. -/
def closeAt (q4 : Option Char) (cs : List Char) : Option (List Char) :=
  match q4 with
  | some q =>
    match cs with
    | c :: ']' :: r => if c == q then some r else none
    | _ => none
  | none =>
    match cs with
    | ']' :: r => some r
    | _ => none

/-- The lazy `.+?\4\]` part of the attrs regex: consume at least one
character (any character except a newline), testing after each consumed
character whether the close matches; the shortest match wins. -/
def lazyVal (q4 : Option Char) : List Char → Option (List Char)
  | [] => none
  | c :: cs =>
    if c == '\n' then none
    else
      match closeAt q4 cs with
      | some r => some r
      | none => lazyVal q4 cs

/-- The `(=(['"]?).+?\4)?\]` tail of the attrs regex.  The optional group is
greedy: it is tried first (with the inner quote `(['"]?)` itself greedy and
backtrackable), and on failure the group matches empty and `\]` must match
directly. -/
def attrsTail (cs : List Char) : Option (List Char) :=
  let grp :=
    match cs with
    | '=' :: cs1 =>
      match cs1 with
      | c :: cs2 =>
        if isQuote c then
          match lazyVal (some c) cs2 with
          | some r => some r
          | none => lazyVal none cs1
        else lazyVal none cs1
      | [] => none
    | _ => none
  match grp with
  | some r => some r
  | none =>
    match cs with
    | ']' :: r => some r
    | _ => none

/-- After the opening quote choice `\2`, match `[a-zA-Z][\w-]*` (the star
never needs to give characters back: none of the characters that may follow
it are in `[\w-]`), then the backreference `\2`, then the tail. -/
def attrsKey (q2 : Option Char) (cs : List Char) : Option (List Char) :=
  match cs with
  | c :: cs1 =>
    if c.isAlpha then
      let cs2 := cs1.dropWhile isWordDash
      match q2 with
      | some q =>
        match cs2 with
        | d :: cs3 => if d == q then attrsTail cs3 else none
        | [] => none
      | none => attrsTail cs2
    else none
  | [] => none

/-- Body of the attrs regex after `\[`: the optional opening quote
`(['"]?)` is greedy but backtrackable. -/
def attrsBody (cs : List Char) : Option (List Char) :=
  match cs with
  | c :: cs1 =>
    if isQuote c then
      match attrsKey (some c) cs1 with
      | some r => some r
      | none => attrsKey none cs
    else attrsKey none cs
  | [] => none

/-- The regex alternative `(?P<attrs>\[(['"]?)[a-zA-Z][\w-]*\2(=(['"]?).+?\4)?\])`;
returns the rest of the input after the match. -/
def matchAttrs (cs : List Char) : Option (List Char) :=
  match cs with
  | '[' :: cs1 => attrsBody cs1
  | _ => none

/-- The regex alternative `(?P<class>\.[\w-]+)`. -/
def matchClass : List Char → Option (List Char)
  | '.' :: c :: cs => if isWordDash c then some (cs.dropWhile isWordDash) else none
  | _ => none

/-- The regex alternative `(?P<id>#[\w-]+)`. -/
def matchId : List Char → Option (List Char)
  | '#' :: c :: cs => if isWordDash c then some (cs.dropWhile isWordDash) else none
  | _ => none

/-- The regex alternative `(?P<name>[\w-]+)`. -/
def matchName : List Char → Option (List Char)
  | c :: cs => if isWordDash c then some (cs.dropWhile isWordDash) else none
  | [] => none

/-- The regex alternative `(?P<rank>\[\d+\])`. -/
def matchRank : List Char → Option (List Char)
  | '[' :: c :: cs =>
    if c.isDigit then
      match cs.dropWhile Char.isDigit with
      | ']' :: r => some r
      | _ => none
    else none
  | _ => none

/-- A sub-token recognised by the scanner, as dispatched on `match.lastgroup`
in `Pattern.__parse`, with the payload the code extracts from the matched
text: the raw match for `attrs`, the match with leading dots (resp. hashes)
stripped for `class` (resp. `id`), the bare match for `name`, and the
integer value of the digits for `rank`. -/
inductive Tok where
  | attrs (raw : String)
  | cls (c : String)
  | id (i : String)
  | name (n : String)
  | rank (r : Nat)
deriving DecidableEq, Repr

/-- One step of the scanner: the five alternatives are tried in the fixed
order of the `TAGS` dictionary (`attrs`, `class`, `id`, `name`, `rank`), the
first that matches at the current position wins.  Returns the token, the
number of characters consumed, and the rest. -/
def matchTok (cs : List Char) : Option (Tok × Nat × List Char) :=
  match matchAttrs cs with
  | some rest =>
    let n := cs.length - rest.length
    some (.attrs (String.mk (cs.take n)), n, rest)
  | none =>
  match matchClass cs with
  | some rest =>
    let n := cs.length - rest.length
    some (.cls (String.mk ((cs.take n).dropWhile (· == '.'))), n, rest)
  | none =>
  match matchId cs with
  | some rest =>
    let n := cs.length - rest.length
    some (.id (String.mk ((cs.take n).dropWhile (· == '#'))), n, rest)
  | none =>
  match matchName cs with
  | some rest =>
    let n := cs.length - rest.length
    some (.name (String.mk (cs.take n)), n, rest)
  | none =>
  match matchRank cs with
  | some rest =>
    let n := cs.length - rest.length
    some (.rank (digitsToNat (((cs.take n).drop 1).dropLast)), n, rest)
  | none => none

/-- The scanner loop `for match in iter(scanner.match, None)`: greedily match
sub-tokens until no alternative matches.  Every alternative consumes at least
one character, so fuel `cs.length + 1` always suffices. -/
def scanGo : Nat → List Char → List (Tok × Nat)
  | 0, _ => []
  | fuel + 1, cs =>
    match matchTok cs with
    | none => []
    | some (t, n, rest) => (t, n) :: scanGo fuel rest

def scanTokens (s : String) : List (Tok × Nat) :=
  scanGo (s.toList.length + 1) s.toList

/-- An attribute constraint value as stored in the `info['attrs']`
dictionary by `Pattern.__parse`: `True` for presence, a string for
equality, a list of class strings for the accumulated `class` entry. -/
inductive AttrVal where
  | presence
  | eq (v : String)
  | classes (cs : List String)
deriving DecidableEq, Repr

/-- The `info` dictionary built by `Pattern.__parse`: one `MatchSpec` of the
chain.  `rank` is present only when a rank sub-token occurred. -/
structure Info where
  attrs : List (String × AttrVal)
  name : String
  recursive : Bool
  rank : Option Nat
deriving DecidableEq, Repr

/-- Model of `re.sub(r'[\'"\[\]]', '', s)`: remove every single-quote,
double-quote and square-bracket character, wherever it occurs. -/
def stripQB (s : String) : String :=
  String.mk (s.toList.filter fun c => !(isQuote c || c == '[' || c == ']'))

/-- Model of `s.split('=', 1)`: split at the first `=` only; `none` when
no `=` occurs. -/
def splitEq1 (s : String) : String × Option String :=
  match s.toList.span (fun c => c != '=') with
  | (k, []) => (String.mk k, none)
  | (k, _ :: v) => (String.mk k, some (String.mk v))

/-- Processing of an attrs sub-token (`core.py` line 70): strip quotes and
brackets from the whole match, then split on the first `=`. -/
def processAttrToken (raw : String) : String × Option String :=
  splitEq1 (stripQB raw)

/-- Assignment into a Python dict modelled as an insertion-ordered
association list: replace in place if the key exists, append otherwise. -/
def dictSet (m : List (String × AttrVal)) (k : String) (v : AttrVal) :
    List (String × AttrVal) :=
  match m with
  | [] => [(k, v)]
  | (k', v') :: rest => if k' == k then (k, v) :: rest else (k', v') :: dictSet rest k v

/-- The body of the scanning loop of `Pattern.__parse`: dispatch on the
matched group.  A `class` sub-token does `setdefault('class', []).append(c)`,
which raises `AttributeError` if the existing `class` entry is not a list. -/
def applyTok (info : Info) : Tok → Except PyErr Info
  | .attrs raw =>
    let kv := processAttrToken raw
    .ok { info with
          attrs := dictSet info.attrs kv.1
            (match kv.2 with
             | none => .presence
             | some v => .eq v) }
  | .cls c =>
    match info.attrs.lookup "class" with
    | none => .ok { info with attrs := dictSet info.attrs "class" (.classes [c]) }
    | some (.classes l) =>
      .ok { info with attrs := dictSet info.attrs "class" (.classes (l ++ [c])) }
    | some _ => .error .attributeError
  | .id i => .ok { info with attrs := dictSet info.attrs "id" (.eq i) }
  | .name n => .ok { info with name := n }
  | .rank r => .ok { info with rank := some r }

/-- Model of `Pattern.__parse`: scan the segment, fold the loop body over
the sub-tokens, then run the post-loop legality check.  When no sub-token
matched at all, `last_match` is `None` and the code crashes with
`AttributeError` while formatting `None.span()`; when the matched span does
not cover the whole segment it raises `ValueError` carrying the span of the
last successful match. -/
def segConsumed (s : String) : Nat := ((scanTokens s).map Prod.snd).sum

def parseElement (s : String) (rec : Bool) : Except PyErr Info :=
  match ((scanTokens s).map Prod.fst).foldlM applyTok
      { attrs := [], name := "", recursive := rec, rank := none } with
  | .error e => .error e
  | .ok info =>
    match (scanTokens s).getLast? with
    | none => .error .attributeError
    | some last =>
      if segConsumed s = s.toList.length then .ok info
      else .error (.valueError (segConsumed s - last.2) (segConsumed s))

/-- ASCII model of the regex class `\s` used by `re.split(r'\s', pattern)`. -/
def pyIsSpace (c : Char) : Bool :=
  c == ' ' || c == '\t' || c == '\n' || c == '\r' ||
  c == Char.ofNat 11 || c == Char.ofNat 12

def pySplitGo (acc : List Char) : List Char → List String
  | [] => [String.mk acc.reverse]
  | c :: cs =>
    if pyIsSpace c then String.mk acc.reverse :: pySplitGo [] cs
    else pySplitGo (c :: acc) cs

/-- Model of `re.split(r'\s', s)`: split at every single whitespace
character; consecutive whitespace characters produce empty strings. -/
def pySplit (s : String) : List String := pySplitGo [] s.toList

/-- The loop of `Pattern.parse`: a token equal to `>` is skipped; any other
token is parsed with `recursive = (index == 0 or elts[index-1] != '>')`.
`prev` is the token at `index - 1` (`none` at index 0). -/
def parseGo (prev : Option String) : List String → Except PyErr (List Info)
  | [] => .ok []
  | t :: rest =>
    if t == ">" then parseGo (some t) rest
    else
      match parseElement t (prev != some ">") with
      | .error e => .error e
      | .ok spec =>
        match parseGo (some t) rest with
        | .error e => .error e
        | .ok chain => .ok (spec :: chain)

/-- Model of `tuple(Pattern.parse(pattern))` for a string input: split on
single whitespace characters and parse every non-`>` token. -/
def compileModel (s : String) : Except PyErr (List Info) :=
  parseGo none (pySplit s)

/-- A value passed to the `Pattern` constructor: either a string or some
non-string object. -/
inductive PyInput where
  | str (s : String)
  | nonStr (desc : String)

/-- Model of `Pattern.__init__`: a non-string input raises `TypeError`
before any parsing happens; a string input is compiled. -/
def patternInit : PyInput → Except PyErr (List Info)
  | .str s => compileModel s
  | .nonStr _ => .error .typeError

mutual
/-- A node of the document tree: tag name, single-valued attributes, the
multi-valued `class` attribute as a list of class tokens, the node's text
(used only to identify nodes in theorems, never by the matcher), and the
list of child nodes in document order. -/
inductive Node where
  | mk (tag : String) (attrs : List (String × String)) (classes : List String)
       (text : String) (children : NodeList)
/-- Children of a node, as a mutual inductive so that tree recursion is
structural. -/
inductive NodeList where
  | nil
  | cons (hd : Node) (tl : NodeList)
end

def Node.tag : Node → String
  | .mk t _ _ _ _ => t

def Node.nattrs : Node → List (String × String)
  | .mk _ a _ _ _ => a

def Node.classes : Node → List String
  | .mk _ _ c _ _ => c

def Node.text : Node → String
  | .mk _ _ _ t _ => t

def Node.children : Node → NodeList
  | .mk _ _ _ _ cs => cs

def NodeList.toList : NodeList → List Node
  | .nil => []
  | .cons c rest => c :: rest.toList

instance : Inhabited Node := ⟨.mk "" [] [] "" .nil⟩

mutual
/-- All strict descendants of a node, in document (pre-)order. -/
def Node.descendants : Node → List Node
  | .mk _ _ _ _ cs => NodeList.descList cs
def NodeList.descList : NodeList → List Node
  | .nil => []
  | .cons c rest => c :: Node.descendants c ++ NodeList.descList rest
end

/-- Modelled from the spec: one attribute constraint of the external
`find_children` capability (spec 4.2 step 1 and 6; implemented by the
markup library, not by this repository).  A presence constraint requires
the key to exist on the node, an equality constraint requires the node's
value for the key to equal the required string, and a class-set constraint
requires the constraint's class tokens to be a subset of the node's class
tokens. -/
def satisfiesAttr (n : Node) (k : String) : AttrVal → Bool
  | .presence => if k == "class" then !n.classes.isEmpty else (n.nattrs.lookup k).isSome
  | .eq v => n.nattrs.lookup k == some v
  | .classes cs => cs.all fun c => n.classes.contains c

/-- Modelled from the spec: the per-node filter of `find_children` — an
absent (empty) name matches any tag, otherwise the tag must equal the name
exactly, and every attribute constraint must be satisfied. -/
def nodeMatches (this : Info) (n : Node) : Bool :=
  (this.name == "" || n.tag == this.name) &&
  this.attrs.all fun kv => satisfiesAttr n kv.1 kv.2

/-- Modelled from the spec: the external capability
`find_children(name?, attrs, recursive)` (bs4's `find_all` in the original
program): the matching nodes among all descendants (`recursive = true`) or
among the direct children (`recursive = false`), in document order. -/
def findAll (this : Info) (parent : Node) : List Node :=
  (if this.recursive then parent.descendants else parent.children.toList).filter
    (nodeMatches this)

/-- The recursive generator `__update(parentnode, index)` of
`Pattern.update`, with the chain suffix after the current spec passed
explicitly: at the terminal spec yield the candidates (or the rank-th one,
when in range); otherwise recurse into each candidate (or only the rank-th
one, when in range). -/
def updateAux : Info → List Info → Node → List Node
  | this, [], parent =>
    let cands := findAll this parent
    (match this.rank with
     | none => cands
     | some r => if r < cands.length then [(cands[r]?).getD default] else [])
  | this, next :: rest, parent =>
    let cands := findAll this parent
    (match this.rank with
     | none => cands.flatMap fun c => updateAux next rest c
     | some r =>
       if r < cands.length then updateAux next rest ((cands[r]?).getD default) else [])

/-- Operational version of `__update` in an exception monad: list indexing
`childnodes[rank]` is modelled by `List.get?` and is an `IndexError` when out
of range, exactly as in Python.  The code guards every indexing with
`rank < len(childnodes)`, so this version never actually errs (proved
below). -/
def updateAuxE : Info → List Info → Node → Except String (List Node)
  | this, [], parent =>
    let cands := findAll this parent
    (match this.rank with
     | none => .ok cands
     | some r =>
       if r < cands.length then
         match cands[r]? with
         | some c => .ok [c]
         | none => .error "IndexError"
       else .ok [])
  | this, next :: rest, parent =>
    let cands := findAll this parent
    (match this.rank with
     | none =>
       cands.foldr
         (fun c acc =>
           match updateAuxE next rest c with
           | .error e => .error e
           | .ok l =>
             match acc with
             | .error e => .error e
             | .ok ls => .ok (l ++ ls))
         (.ok [])
     | some r =>
       if r < cands.length then
         match cands[r]? with
         | some c => updateAuxE next rest c
         | none => .error "IndexError"
       else .ok [])

/-- Model of `Pattern.update(rootnode)` (fully materialised): `__update`
starts at `self.pattern[0]`, which raises `IndexError` when the chain is
empty (reachable via `compile(">")`). -/
def updateModel (chain : List Info) (root : Node) : Except String (List Node) :=
  match chain with
  | [] => .error "IndexError"
  | this :: rest => updateAuxE this rest root

def nodesOf : List Node → NodeList
  | [] => .nil
  | n :: ns => .cons n (nodesOf ns)

/-- The tree of the spec's rank-selection example:
three `li` children `A`, `B`, `C` under a `ul`. -/
def liA : Node := .mk "li" [] [] "A" .nil

def liB : Node := .mk "li" [] [] "B" .nil

def liC : Node := .mk "li" [] [] "C" .nil

def demoUl : Node := .mk "ul" [] [] "" (nodesOf [liA, liB, liC])

def demoRoot : Node := .mk "html" [] [] "" (nodesOf [demoUl])

/-- A root holding an `li` carrying only class `x`. -/
def rootX : Node :=
  .mk "div" [] [] "" (nodesOf [.mk "li" [] ["x"] "x-only" .nil])

/-- A root holding an `li` carrying classes `x y z`. -/
def rootXYZ : Node :=
  .mk "div" [] [] "" (nodesOf [.mk "li" [] ["x", "y", "z"] "xyz" .nil])

/-- The candidates a spec contributes at one node after rank selection:
all candidates when no rank is present, the rank-th candidate when it is in
range, nothing otherwise. -/
def selected (this : Info) (parent : Node) : List Node :=
  let cands := findAll this parent
  match this.rank with
  | none => cands
  | some r => if r < cands.length then [(cands[r]?).getD default] else []

/-- A suspended frame of the lazy matcher: the candidates still to be
processed at one level, and the chain suffix that remains below that
level. -/
abbrev Frame := List Node × List Info

/-- One invocation of `Pattern.update` creates a fresh generator; its
initial state holds the root's selected candidates for the first spec and
the remaining chain. -/
def initFrames (this : Info) (rest : List Info) (root : Node) : List Frame :=
  [(selected this root, rest)]

/-- The generator protocol of the matcher as an explicit iterator over a
stack of frames (the shape the spec's design notes prescribe for
reimplementation): exhausted frames are popped, a candidate at a terminal
frame is emitted, a candidate at a non-terminal frame is expanded into a
child frame.  `fuel` bounds the number of steps; `stackCost` below computes
a sufficient bound. -/
def runIter : Nat → List Frame → List Node
  | 0, _ => []
  | _ + 1, [] => []
  | n + 1, ([], _) :: fs => runIter n fs
  | n + 1, (c :: cs, []) :: fs => c :: runIter n ((cs, []) :: fs)
  | n + 1, (c :: cs, next :: rest) :: fs =>
    runIter n ((selected next c, rest) :: (cs, next :: rest) :: fs)

/-- Number of iterator steps needed to exhaust one pending candidate
against a chain suffix. -/
def contCost : List Info → Node → Nat
  | [], _ => 1
  | next :: rest, c => 1 + (((selected next c).map (contCost rest)).sum + 1)

/-- Number of iterator steps needed to exhaust one frame. -/
def frameCost (f : Frame) : Nat := (f.1.map (contCost f.2)).sum + 1

/-- Number of iterator steps needed to exhaust a whole stack. -/
def stackCost (fs : List Frame) : Nat := (fs.map frameCost).sum

/-- Denotation of one pending candidate against a chain suffix: itself when
the suffix is empty, otherwise everything produced below it. -/
def contSem : List Info → Node → List Node
  | [], c => [c]
  | next :: rest, c => (selected next c).flatMap (contSem rest)

/-- Denotation of a frame. -/
def frameSem (f : Frame) : List Node := f.1.flatMap (contSem f.2)

def namePayload : Tok → Option String
  | .name n => some n
  | _ => none

def idPayload : Tok → Option String
  | .id i => some i
  | _ => none

def clsPayload : Tok → Option String
  | .cls c => some c
  | _ => none

/-- The dictionary key an attrs sub-token writes to, if the token is an
attrs token. -/
def attrsKeyOf : Tok → Option String
  | .attrs raw => some (processAttrToken raw).1
  | _ => none

/-- The payload of the last token (in scan order) that carries one, i.e.
the value that survives a sequence of overwrites. -/
def lastPayload (f : Tok → Option α) : List Tok → Option α
  | [] => none
  | t :: ts =>
    match lastPayload f ts with
    | some v => some v
    | none => f t

def clsPayloads (toks : List Tok) : List String := toks.filterMap clsPayload

theorem lookup_dictSet_self (m : List (String × AttrVal)) (k : String) (v : AttrVal) :
    (dictSet m k v).lookup k = some v := by
  induction m with
  | nil => simp [dictSet, List.lookup_cons]
  | cons p rest ih =>
    obtain ⟨k', v'⟩ := p
    by_cases h : k' = k
    · subst h; simp [dictSet, List.lookup_cons]
    · simp [dictSet, List.lookup_cons, h, beq_false_of_ne (Ne.symm h), ih]

theorem lookup_dictSet_ne (m : List (String × AttrVal)) (k k' : String) (v : AttrVal)
    (h : k ≠ k') : (dictSet m k v).lookup k' = m.lookup k' := by
  induction m with
  | nil => simp [dictSet, List.lookup_cons, beq_false_of_ne (Ne.symm h)]
  | cons p rest ih =>
    obtain ⟨k0, v0⟩ := p
    by_cases h0 : k0 = k
    · subst h0
      simp [dictSet, List.lookup_cons, beq_false_of_ne (Ne.symm h)]
    · simp only [dictSet, beq_iff_eq, h0, if_false]
      by_cases h1 : k' = k0
      · subst h1; simp [List.lookup_cons]
      · simp [List.lookup_cons, beq_false_of_ne h1, ih]

theorem applyTok_recursive (info : Info) (t : Tok) (info' : Info)
    (h : applyTok info t = .ok info') : info'.recursive = info.recursive := by
  cases t with
  | attrs raw => simp only [applyTok, Except.ok.injEq] at h; rw [← h]
  | cls c =>
    simp only [applyTok] at h
    split at h
    · simp only [Except.ok.injEq] at h; rw [← h]
    · simp only [Except.ok.injEq] at h; rw [← h]
    · exact absurd h (by simp)
  | id i => simp only [applyTok, Except.ok.injEq] at h; rw [← h]
  | name n => simp only [applyTok, Except.ok.injEq] at h; rw [← h]
  | rank r => simp only [applyTok, Except.ok.injEq] at h; rw [← h]

theorem applyTok_name (info : Info) (t : Tok) (info' : Info)
    (h : applyTok info t = .ok info') :
    info'.name = (namePayload t).getD info.name := by
  cases t with
  | attrs raw => simp only [applyTok, Except.ok.injEq] at h; rw [← h]; rfl
  | cls c =>
    simp only [applyTok] at h
    split at h
    · simp only [Except.ok.injEq] at h; rw [← h]; rfl
    · simp only [Except.ok.injEq] at h; rw [← h]; rfl
    · exact absurd h (by simp)
  | id i => simp only [applyTok, Except.ok.injEq] at h; rw [← h]; rfl
  | name n => simp only [applyTok, Except.ok.injEq] at h; rw [← h]; rfl
  | rank r => simp only [applyTok, Except.ok.injEq] at h; rw [← h]; rfl

theorem applyTok_lookup_id (info : Info) (t : Tok) (info' : Info)
    (h : applyTok info t = .ok info') (hk : attrsKeyOf t ≠ some "id") :
    info'.attrs.lookup "id" =
      (match idPayload t with
       | some i => some (.eq i)
       | none => info.attrs.lookup "id") := by
  cases t with
  | attrs raw =>
    simp only [applyTok, Except.ok.injEq] at h
    rw [← h]
    simp only [idPayload]
    exact lookup_dictSet_ne _ _ _ _ (by simpa [attrsKeyOf] using hk)
  | cls c =>
    simp only [applyTok] at h
    split at h
    · simp only [Except.ok.injEq] at h; rw [← h]
      simpa [idPayload] using lookup_dictSet_ne info.attrs "class" "id" _ (by decide)
    · simp only [Except.ok.injEq] at h; rw [← h]
      simpa [idPayload] using lookup_dictSet_ne info.attrs "class" "id" _ (by decide)
    · exact absurd h (by simp)
  | id i =>
    simp only [applyTok, Except.ok.injEq] at h
    rw [← h]
    simpa [idPayload] using lookup_dictSet_self info.attrs "id" (.eq i)
  | name n => simp only [applyTok, Except.ok.injEq] at h; rw [← h]; rfl
  | rank r => simp only [applyTok, Except.ok.injEq] at h; rw [← h]; rfl

theorem applyTok_lookup_class (info : Info) (t : Tok) (info' : Info)
    (h : applyTok info t = .ok info') (hk : attrsKeyOf t ≠ some "class") :
    info'.attrs.lookup "class" =
      (match clsPayload t with
       | some c =>
         (match info.attrs.lookup "class" with
          | some (.classes l) => some (.classes (l ++ [c]))
          | _ => some (.classes [c]))
       | none => info.attrs.lookup "class") := by
  cases t with
  | attrs raw =>
    simp only [applyTok, Except.ok.injEq] at h
    rw [← h]
    simp only [clsPayload]
    exact lookup_dictSet_ne _ _ _ _ (by simpa [attrsKeyOf] using hk)
  | cls c =>
    simp only [applyTok] at h
    split at h
    · simp only [Except.ok.injEq] at h; rw [← h]
      rename_i hl
      simp [clsPayload, hl, lookup_dictSet_self]
    · simp only [Except.ok.injEq] at h; rw [← h]
      rename_i l hl
      simp [clsPayload, hl, lookup_dictSet_self]
    · exact absurd h (by simp)
  | id i =>
    simp only [applyTok, Except.ok.injEq] at h
    rw [← h]
    simpa [clsPayload] using lookup_dictSet_ne info.attrs "id" "class" _ (by decide)
  | name n => simp only [applyTok, Except.ok.injEq] at h; rw [← h]; rfl
  | rank r => simp only [applyTok, Except.ok.injEq] at h; rw [← h]; rfl

theorem foldlM_recursive (toks : List Tok) : ∀ info0 info : Info,
    toks.foldlM applyTok info0 = .ok info → info.recursive = info0.recursive := by
  induction toks with
  | nil =>
    intro info0 info h
    rw [List.foldlM_nil] at h
    simp only [pure, Except.pure, Except.ok.injEq] at h
    rw [← h]
  | cons t ts ih =>
    intro info0 info h
    rw [List.foldlM_cons] at h
    cases ha : applyTok info0 t with
    | error e =>
      rw [ha] at h
      exact Except.noConfusion (h : (Except.error e : Except PyErr Info) = .ok info)
    | ok info1 =>
      rw [ha] at h
      have h' : ts.foldlM applyTok info1 = .ok info := h
      rw [ih info1 info h', applyTok_recursive info0 t info1 ha]

theorem foldlM_name (toks : List Tok) : ∀ info0 info : Info,
    toks.foldlM applyTok info0 = .ok info →
    info.name = (lastPayload namePayload toks).getD info0.name := by
  induction toks with
  | nil =>
    intro info0 info h
    rw [List.foldlM_nil] at h
    simp only [pure, Except.pure, Except.ok.injEq] at h
    rw [← h]; rfl
  | cons t ts ih =>
    intro info0 info h
    rw [List.foldlM_cons] at h
    cases ha : applyTok info0 t with
    | error e =>
      rw [ha] at h
      exact Except.noConfusion (h : (Except.error e : Except PyErr Info) = .ok info)
    | ok info1 =>
      rw [ha] at h
      have h' : ts.foldlM applyTok info1 = .ok info := h
      have hn := applyTok_name info0 t info1 ha
      have hih := ih info1 info h'
      simp only [lastPayload]
      cases hl : lastPayload namePayload ts with
      | some v => rw [hih, hl]; rfl
      | none => rw [hih, hl]; simpa using hn

theorem foldlM_id (toks : List Tok) : ∀ info0 info : Info,
    (∀ tok ∈ toks, attrsKeyOf tok ≠ some "id") →
    toks.foldlM applyTok info0 = .ok info →
    info.attrs.lookup "id" =
      (match lastPayload idPayload toks with
       | some i => some (.eq i)
       | none => info0.attrs.lookup "id") := by
  induction toks with
  | nil =>
    intro info0 info _ h
    rw [List.foldlM_nil] at h
    simp only [pure, Except.pure, Except.ok.injEq] at h
    rw [← h]; rfl
  | cons t ts ih =>
    intro info0 info hks h
    rw [List.foldlM_cons] at h
    cases ha : applyTok info0 t with
    | error e =>
      rw [ha] at h
      exact Except.noConfusion (h : (Except.error e : Except PyErr Info) = .ok info)
    | ok info1 =>
      rw [ha] at h
      have h' : ts.foldlM applyTok info1 = .ok info := h
      have h1 := applyTok_lookup_id info0 t info1 ha (hks t (by simp))
      have hih := ih info1 info (fun tok htok => hks tok (by simp [htok])) h'
      simp only [lastPayload]
      cases hl : lastPayload idPayload ts with
      | some v => simp only [hl] at hih ⊢; exact hih
      | none =>
        simp only [hl] at hih ⊢
        rw [hih, h1]

theorem foldlM_class_some (toks : List Tok) : ∀ (info0 info : Info) (l : List String),
    (∀ tok ∈ toks, attrsKeyOf tok ≠ some "class") →
    info0.attrs.lookup "class" = some (.classes l) →
    toks.foldlM applyTok info0 = .ok info →
    info.attrs.lookup "class" = some (.classes (l ++ clsPayloads toks)) := by
  induction toks with
  | nil =>
    intro info0 info l _ h0 h
    rw [List.foldlM_nil] at h
    simp only [pure, Except.pure, Except.ok.injEq] at h
    rw [← h]
    simpa [clsPayloads] using h0
  | cons t ts ih =>
    intro info0 info l hks h0 h
    rw [List.foldlM_cons] at h
    cases ha : applyTok info0 t with
    | error e =>
      rw [ha] at h
      exact Except.noConfusion (h : (Except.error e : Except PyErr Info) = .ok info)
    | ok info1 =>
      rw [ha] at h
      have h' : ts.foldlM applyTok info1 = .ok info := h
      have h1 := applyTok_lookup_class info0 t info1 ha (hks t (by simp))
      have hks' : ∀ tok ∈ ts, attrsKeyOf tok ≠ some "class" :=
        fun tok htok => hks tok (by simp [htok])
      cases hc : clsPayload t with
      | some c =>
        simp only [hc, h0] at h1
        have := ih info1 info (l ++ [c]) hks' h1 h'
        rw [this]
        simp [clsPayloads, List.filterMap_cons, hc]
      | none =>
        simp only [hc, h0] at h1
        have := ih info1 info l hks' h1 h'
        rw [this]
        simp [clsPayloads, List.filterMap_cons, hc]

theorem foldlM_class_none (toks : List Tok) : ∀ info0 info : Info,
    (∀ tok ∈ toks, attrsKeyOf tok ≠ some "class") →
    info0.attrs.lookup "class" = none →
    toks.foldlM applyTok info0 = .ok info →
    info.attrs.lookup "class" =
      (if clsPayloads toks = [] then none
       else some (.classes (clsPayloads toks))) := by
  induction toks with
  | nil =>
    intro info0 info _ h0 h
    rw [List.foldlM_nil] at h
    simp only [pure, Except.pure, Except.ok.injEq] at h
    rw [← h]
    simpa [clsPayloads] using h0
  | cons t ts ih =>
    intro info0 info hks h0 h
    rw [List.foldlM_cons] at h
    cases ha : applyTok info0 t with
    | error e =>
      rw [ha] at h
      exact Except.noConfusion (h : (Except.error e : Except PyErr Info) = .ok info)
    | ok info1 =>
      rw [ha] at h
      have h' : ts.foldlM applyTok info1 = .ok info := h
      have h1 := applyTok_lookup_class info0 t info1 ha (hks t (by simp))
      have hks' : ∀ tok ∈ ts, attrsKeyOf tok ≠ some "class" :=
        fun tok htok => hks tok (by simp [htok])
      cases hc : clsPayload t with
      | some c =>
        simp only [hc, h0] at h1
        have := foldlM_class_some ts info1 info [c] hks' h1 h'
        rw [this]
        simp [clsPayloads, List.filterMap_cons, hc]
      | none =>
        simp only [hc, h0] at h1
        have := ih info1 info hks' h1 h'
        rw [this]
        simp [clsPayloads, List.filterMap_cons, hc]

theorem parseElement_inv (s : String) (rec : Bool) (info : Info)
    (h : parseElement s rec = .ok info) :
    ((scanTokens s).map Prod.fst).foldlM applyTok
      { attrs := [], name := "", recursive := rec, rank := none } = .ok info := by
  unfold parseElement at h
  cases hf : ((scanTokens s).map Prod.fst).foldlM applyTok
      { attrs := [], name := "", recursive := rec, rank := none } with
  | error e => rw [hf] at h; exact Except.noConfusion h
  | ok info' =>
    rw [hf] at h
    cases hl : (scanTokens s).getLast? with
    | none => simp only [hl] at h; exact Except.noConfusion h
    | some last =>
      simp only [hl] at h
      by_cases hc : segConsumed s = s.toList.length
      · rw [if_pos hc] at h
        simp only [Except.ok.injEq] at h
        rw [h]
      · rw [if_neg hc] at h; exact Except.noConfusion h

theorem parseElement_recursive (s : String) (rec : Bool) (info : Info)
    (h : parseElement s rec = .ok info) : info.recursive = rec := by
  have := foldlM_recursive ((scanTokens s).map Prod.fst) _ _ (parseElement_inv s rec info h)
  simpa using this

theorem parseGo_length (ts : List String) : ∀ (prev : Option String) (chain : List Info),
    parseGo prev ts = .ok chain →
    chain.length = (ts.filter (fun t => t != ">")).length := by
  induction ts with
  | nil =>
    intro prev chain h
    simp only [parseGo, Except.ok.injEq] at h
    rw [← h]; rfl
  | cons t rest ih =>
    intro prev chain h
    simp only [parseGo] at h
    split at h
    · rename_i ht
      have htp : t = ">" := by simpa using ht
      rw [ih _ _ h]
      simp [List.filter_cons, htp]
    · rename_i ht
      have htp : ¬t = ">" := by simpa using ht
      cases hpe : parseElement t (prev != some ">") with
      | error e => simp only [hpe] at h; exact Except.noConfusion h
      | ok spec =>
        simp only [hpe] at h
        cases hpg : parseGo (some t) rest with
        | error e => simp only [hpg] at h; exact Except.noConfusion h
        | ok chain' =>
          simp only [hpg, Except.ok.injEq] at h
          rw [← h]
          simp [List.filter_cons, htp, ih _ _ hpg]

/-- The `recursive` flag that `Pattern.parse` computes for the token at
position `j`: `index == 0 or elts[index - 1] != '>'`, with `prev` the
token before the current sublist (`none` at the top). -/
def flagAt (prev : Option String) (ts : List String) : Nat → Bool
  | 0 => prev != some ">"
  | j + 1 => ts[j]? != some ">"

theorem flagAt_cons (prev : Option String) (t0 : String) (rest : List String) (j : Nat) :
    flagAt prev (t0 :: rest) (j + 1) = flagAt (some t0) rest j := by
  cases j <;> simp [flagAt]

theorem parseGo_pos (ts : List String) : ∀ (prev : Option String) (chain : List Info)
    (j : Nat) (t : String),
    parseGo prev ts = .ok chain → ts[j]? = some t → t ≠ ">" →
    ∃ spec, parseElement t (flagAt prev ts j) = .ok spec ∧
      chain[((ts.take j).filter (fun u => u != ">")).length]? = some spec := by
  induction ts with
  | nil => intro prev chain j t _ hj _; simp at hj
  | cons t0 rest ih =>
    intro prev chain j t h hj ht
    simp only [parseGo] at h
    split at h
    · rename_i ht0
      have ht0p : t0 = ">" := by simpa using ht0
      cases j with
      | zero =>
        simp only [List.getElem?_cons_zero, Option.some.injEq] at hj
        exact absurd (hj ▸ ht0p) ht
      | succ j' =>
        simp only [List.getElem?_cons_succ] at hj
        obtain ⟨spec, h1, h2⟩ := ih (some t0) chain j' t h hj ht
        refine ⟨spec, ?_, ?_⟩
        · rw [flagAt_cons]; exact h1
        · simpa [List.take_succ_cons, List.filter_cons, ht0p] using h2
    · rename_i ht0
      have ht0p : ¬t0 = ">" := by simpa using ht0
      cases hpe : parseElement t0 (prev != some ">") with
      | error e => simp only [hpe] at h; exact Except.noConfusion h
      | ok spec0 =>
        simp only [hpe] at h
        cases hpg : parseGo (some t0) rest with
        | error e => simp only [hpg] at h; exact Except.noConfusion h
        | ok chain' =>
          simp only [hpg, Except.ok.injEq] at h
          cases j with
          | zero =>
            simp only [List.getElem?_cons_zero, Option.some.injEq] at hj
            subst hj
            refine ⟨spec0, hpe, ?_⟩
            rw [← h]; simp
          | succ j' =>
            simp only [List.getElem?_cons_succ] at hj
            obtain ⟨spec, h1, h2⟩ := ih (some t0) chain' j' t hpg hj ht
            refine ⟨spec, ?_, ?_⟩
            · rw [flagAt_cons]; exact h1
            · rw [← h]
              simpa [List.take_succ_cons, List.filter_cons, ht0p] using h2

theorem updateAuxE_ok (rest : List Info) : ∀ (this : Info) (parent : Node),
    updateAuxE this rest parent = .ok (updateAux this rest parent) := by
  induction rest with
  | nil =>
    intro this parent
    simp only [updateAuxE, updateAux]
    cases hr : this.rank with
    | none => rfl
    | some r =>
      dsimp only
      by_cases h : r < (findAll this parent).length
      · rw [if_pos h, if_pos h, List.getElem?_eq_getElem h]
        rfl
      · rw [if_neg h, if_neg h]
  | cons next rest' ih =>
    intro this parent
    simp only [updateAuxE, updateAux]
    cases hr : this.rank with
    | none =>
      dsimp only
      induction findAll this parent with
      | nil => rfl
      | cons c cs ihc =>
        rw [List.foldr_cons, ihc, ih next c]
        simp [List.flatMap_cons]
    | some r =>
      dsimp only
      by_cases h : r < (findAll this parent).length
      · rw [if_pos h, if_pos h, List.getElem?_eq_getElem h]
        exact ih next _
      · rw [if_neg h, if_neg h]

theorem updateAux_empty (this : Info) (rest : List Info) (parent : Node)
    (h : findAll this parent = []) : updateAux this rest parent = [] := by
  cases rest with
  | nil =>
    simp only [updateAux, h]
    cases this.rank with
    | none => rfl
    | some r => simp
  | cons next rest' =>
    simp only [updateAux, h]
    cases this.rank with
    | none => rfl
    | some r => simp

theorem updateAux_sem (rest : List Info) : ∀ (this : Info) (parent : Node),
    updateAux this rest parent = (selected this parent).flatMap (contSem rest) := by
  induction rest with
  | nil =>
    intro this parent
    simp only [updateAux, selected, contSem]
    cases this.rank with
    | none => simp
    | some r => dsimp only; by_cases h : r < (findAll this parent).length <;> simp [h]
  | cons next rest' ih =>
    intro this parent
    simp only [updateAux, selected]
    cases this.rank with
    | none =>
      dsimp only
      simp only [contSem]
      congr 1
      funext c
      rw [ih next c]
    | some r =>
      dsimp only
      by_cases h : r < (findAll this parent).length
      · rw [if_pos h, if_pos h]
        simp only [List.flatMap_cons, List.flatMap_nil, List.append_nil, contSem]
        exact ih next _
      · rw [if_neg h, if_neg h]
        rfl

theorem frameCost_pos (f : Frame) : 1 ≤ frameCost f := by
  simp only [frameCost]
  omega

theorem runIter_sem : ∀ (n : Nat) (fs : List Frame), stackCost fs ≤ n →
    runIter n fs = fs.flatMap frameSem := by
  intro n
  induction n with
  | zero =>
    intro fs h
    cases fs with
    | nil => rfl
    | cons f fs' =>
      exfalso
      have h1 := frameCost_pos f
      simp only [stackCost, List.map_cons, List.sum_cons, Nat.le_zero] at h
      omega
  | succ n ih =>
    intro fs h
    cases fs with
    | nil => rfl
    | cons f fs' =>
      obtain ⟨cands, r⟩ := f
      cases cands with
      | nil =>
        rw [show runIter (n + 1) (([], r) :: fs') = runIter n fs' from rfl]
        rw [ih fs' ?_]
        · simp [frameSem]
        · simp only [stackCost, List.map_cons, List.sum_cons, frameCost,
            List.map_nil, List.sum_nil] at h ⊢
          omega
      | cons c cs =>
        cases r with
        | nil =>
          rw [show runIter (n + 1) ((c :: cs, []) :: fs') =
              c :: runIter n ((cs, []) :: fs') from rfl]
          rw [ih ((cs, []) :: fs') ?_]
          · simp [frameSem, contSem, List.flatMap_cons]
          · simp only [stackCost, List.map_cons, List.sum_cons, frameCost,
              contCost] at h ⊢
            omega
        | cons next rest =>
          rw [show runIter (n + 1) ((c :: cs, next :: rest) :: fs') =
              runIter n ((selected next c, rest) :: (cs, next :: rest) :: fs') from rfl]
          rw [ih ((selected next c, rest) :: (cs, next :: rest) :: fs') ?_]
          · simp only [frameSem, List.flatMap_cons, contSem, List.append_assoc]
          · simp only [stackCost, List.map_cons, List.sum_cons, frameCost,
              contCost] at h ⊢
            omega

theorem dropWhile_head_false {α : Type} (p : α → Bool) (l : List α) (c : α) (cs : List α)
    (h : l.dropWhile p = c :: cs) : p c = false := by
  induction l with
  | nil => simp at h
  | cons a l ih =>
    rw [List.dropWhile_cons] at h
    by_cases hp : p a = true
    · rw [if_pos hp] at h; exact ih h
    · rw [if_neg hp] at h
      cases h
      simpa using hp

/-- C1: the spec claims that a segment the sub-token grammars cannot fully
consume makes compilation fail with a SyntaxError (a `ValueError` carrying
the offending span), and in particular that `compile("???")` fails that way
at offset 0.  The code indeed intends this — line 83 raises `ValueError` —
but when no sub-token matched at all, `last_match` is `None` and the
formatting call `last_match.span()` crashes first with `AttributeError`.
This theorem evaluates the model at the failing input `"???"`: the failure
is an `AttributeError`, not the promised `ValueError` with a span. -/
theorem c1_crash_kind : compileModel "???" = .error PyErr.attributeError := rfl

/-- C2 counterexample: the claim says arbitrary whitespace runs separate
segments and that whitespace-only or empty segments are skipped with no
error.  But `Pattern.parse` splits with `re.split(r'\s', ...)`, which cuts
at every single whitespace character, so `"a  b"` (two spaces) produces an
empty middle segment, which is not skipped: it reaches `Pattern.__parse`,
where no sub-token matches and the `None.span()` crash of line 83 fires.
So the well-formed (by the claim's criterion) selector `"a  b"` does not
compile to a two-element chain: compilation errs. -/
theorem c2_counterexample : compileModel "a  b" = .error PyErr.attributeError := rfl

/-- C2 (amended): segments are separated by single whitespace characters
(`re.split(r'\s', s)`); consecutive, leading or trailing whitespace makes
an empty segment which is not skipped but fails compilation.  For every
selector that does compile, the chain length equals the number of
split tokens distinct from `>`. -/
theorem c2_segment_count (s : String) (chain : List Info)
    (h : compileModel s = .ok chain) :
    chain.length = ((pySplit s).filter (fun t => t != ">")).length :=
  parseGo_length (pySplit s) none chain h

/-- Witness for C2: `"ul li"` compiles to a chain of length two, the number
of its non-`>` tokens. -/
theorem c2_segment_count_witness :
    ([⟨[], "ul", true, none⟩, ⟨[], "li", true, none⟩] : List Info).length =
      ((pySplit "ul li").filter (fun t => t != ">")).length :=
  c2_segment_count "ul li" [⟨[], "ul", true, none⟩, ⟨[], "li", true, none⟩] rfl

/-- C3 counterexample: the claim states that the very first segment of a
compiled chain always has `recursive = true`.  But `compile("> a")`
succeeds (the leading `>` is consumed) and its first — and only — segment
has `recursive = false`, because the token preceding `a` is `>`. -/
theorem c3_counterexample :
    ((compileModel "> a").toOption.getD []).map Info.recursive = [false] := rfl

/-- C3 (amended): a segment's `recursive` flag is true iff its token is at
index 0 of the split list or the immediately preceding token is not `>`;
consequently the first segment of the chain has `recursive = true` exactly
when the selector does not begin with a `>` token.  A `>` token itself
produces no `MatchSpec`: the chain position of the token at index `j` is
the number of earlier non-`>` tokens. -/
theorem c3_recursive_flag (s : String) (chain : List Info) (j : Nat) (t : String)
    (h : compileModel s = .ok chain) (hj : (pySplit s)[j]? = some t) (ht : t ≠ ">") :
    ∃ spec, chain[(((pySplit s).take j).filter (fun u => u != ">")).length]? = some spec ∧
      spec.recursive = flagAt none (pySplit s) j := by
  obtain ⟨spec, h1, h2⟩ := parseGo_pos (pySplit s) none chain j t h hj ht
  exact ⟨spec, h2, parseElement_recursive _ _ _ h1⟩

/-- Witness for C3: in `"a > b"`, the token `b` at index 2 lands at chain
position 1 with `recursive = flagAt none _ 2 = false`. -/
theorem c3_recursive_flag_witness :
    ∃ spec, ([⟨[], "a", true, none⟩, ⟨[], "b", false, none⟩] :
        List Info)[(((pySplit "a > b").take 2).filter (fun u => u != ">")).length]? =
        some spec ∧
      spec.recursive = flagAt none (pySplit "a > b") 2 :=
  c3_recursive_flag "a > b" [⟨[], "a", true, none⟩, ⟨[], "b", false, none⟩] 2 "b"
    rfl rfl (by decide)

/-- C4: rank semantics.  When a spec carries a rank, exactly the rank-th
candidate (zero-based, in document order) is used — yielded at a terminal
segment, recursed into otherwise — when the rank is below the candidate
count, and the branch contributes nothing when it is not.  Concretely,
`compile("ul li[2]")` over `<ul><li>A</li><li>B</li><li>C</li></ul>`
matches exactly the node with text `C`, and `compile("ul li[5]")` matches
nothing.  The `find_children` capability is modelled from the spec. -/
theorem c4_rank_selection :
    (∀ (this : Info) (parent : Node) (r : Nat), this.rank = some r →
      updateAux this [] parent =
        (if r < (findAll this parent).length
         then [((findAll this parent)[r]?).getD default] else [])) ∧
    (∀ (this next : Info) (rest : List Info) (parent : Node) (r : Nat),
      this.rank = some r →
      updateAux this (next :: rest) parent =
        (if r < (findAll this parent).length
         then updateAux next rest (((findAll this parent)[r]?).getD default) else [])) ∧
    compileModel "ul li[2]" = .ok [⟨[], "ul", true, none⟩, ⟨[], "li", true, some 2⟩] ∧
    (updateModel [⟨[], "ul", true, none⟩, ⟨[], "li", true, some 2⟩] demoRoot).map
      (List.map Node.text) = .ok ["C"] ∧
    compileModel "ul li[5]" = .ok [⟨[], "ul", true, none⟩, ⟨[], "li", true, some 5⟩] ∧
    (updateModel [⟨[], "ul", true, none⟩, ⟨[], "li", true, some 5⟩] demoRoot).map
      (List.map Node.text) = .ok [] := by
  refine ⟨?_, ?_, rfl, rfl, rfl, rfl⟩
  · intro this parent r hr
    simp only [updateAux, hr]
  · intro this next rest parent r hr
    simp only [updateAux, hr]

/-- Witness for C4: the rank-2 branch over the demo list selects index 2. -/
theorem c4_rank_selection_witness :
    updateAux ⟨[], "li", true, some 2⟩ [] demoUl =
      (if 2 < (findAll ⟨[], "li", true, some 2⟩ demoUl).length
       then [((findAll ⟨[], "li", true, some 2⟩ demoUl)[2]?).getD default] else []) :=
  c4_rank_selection.1 ⟨[], "li", true, some 2⟩ demoUl 2 rfl

/-- C5: matching never raises for data-shape reasons.  The operational
matcher (in which out-of-range indexing is an explicit `IndexError`, as in
Python) always returns `ok` of the pure result, because the code guards
every rank access with `rank < len(childnodes)`; and a level with no
matching candidates (missing attribute, absent tag — and an out-of-range
rank likewise) contributes the empty result for that branch.  Stated for
the chains `__update` actually runs on (a current spec plus the remaining
suffix); an empty chain — reachable only via `compile(">")` — is the sole
indexing `update` does not guard. -/
theorem c5_no_raise (this : Info) (rest : List Info) (parent : Node) :
    updateAuxE this rest parent = .ok (updateAux this rest parent) ∧
    (findAll this parent = [] → updateAux this rest parent = []) :=
  ⟨updateAuxE_ok rest this parent, updateAux_empty this rest parent⟩

/-- Witness for C5: a spec matching nothing (`nav` over the demo tree)
yields `ok []`, not an error. -/
theorem c5_no_raise_witness :
    updateAuxE ⟨[], "nav", true, none⟩ [] demoRoot =
      .ok (updateAux ⟨[], "nav", true, none⟩ [] demoRoot) ∧
    updateAux ⟨[], "nav", true, none⟩ [] demoRoot = [] :=
  ⟨(c5_no_raise ⟨[], "nav", true, none⟩ [] demoRoot).1,
   (c5_no_raise ⟨[], "nav", true, none⟩ [] demoRoot).2 rfl⟩

/-- C6: within one segment the class constraint accumulates across repeated
class sub-tokens and is never overwritten by them: after parsing, the
`class` entry holds exactly the list of class payloads in order (provided
no bracketed attrs sub-token targets the key `class`, which is a different
grammar).  And a matched node must carry all required class tokens:
`li.x.y` rejects a node with class `x` only and accepts one with classes
`x y z` (`find_children` modelled from the spec's subset contract). -/
theorem c6_class_conjunction :
    (∀ (toks : List Tok) (info0 info : Info),
      (∀ tok ∈ toks, attrsKeyOf tok ≠ some "class") →
      info0.attrs.lookup "class" = none →
      toks.foldlM applyTok info0 = .ok info →
      info.attrs.lookup "class" =
        (if clsPayloads toks = [] then none
         else some (.classes (clsPayloads toks)))) ∧
    compileModel "li.x.y" =
      .ok [⟨[("class", .classes ["x", "y"])], "li", true, none⟩] ∧
    (updateModel [⟨[("class", .classes ["x", "y"])], "li", true, none⟩] rootX).map
      (List.map Node.text) = .ok [] ∧
    (updateModel [⟨[("class", .classes ["x", "y"])], "li", true, none⟩] rootXYZ).map
      (List.map Node.text) = .ok ["xyz"] :=
  ⟨fun toks info0 info h1 h2 h3 => foldlM_class_none toks info0 info h1 h2 h3,
   rfl, rfl, rfl⟩

/-- Witness for C6: folding the tokens of `li.x.y` accumulates the
class-set `[x, y]`. -/
theorem c6_class_conjunction_witness :
    ({ attrs := [("class", AttrVal.classes ["x", "y"])], name := "li",
       recursive := true, rank := none } : Info).attrs.lookup "class" =
      (if clsPayloads [Tok.name "li", Tok.cls "x", Tok.cls "y"] = [] then none
       else some (.classes (clsPayloads [Tok.name "li", Tok.cls "x", Tok.cls "y"]))) :=
  c6_class_conjunction.1 [Tok.name "li", Tok.cls "x", Tok.cls "y"]
    ⟨[], "li", true, none⟩
    ⟨[("class", .classes ["x", "y"])], "li", true, none⟩
    (by decide) rfl rfl

/-- C7: the `name` and `id` constraints are scalar, last one parsed wins:
after folding the scanned sub-tokens, `name` is the payload of the last
name sub-token (or the initial empty name) and the `id` entry is the
payload of the last id sub-token (provided no bracketed attrs sub-token
targets the key `id`).  The segment `a#x[0]#y[1]b` — two ids, two names —
is not rejected: it compiles with `name = b`, `id = y`. -/
theorem c7_last_wins :
    (∀ (toks : List Tok) (info0 info : Info),
      toks.foldlM applyTok info0 = .ok info →
      info.name = (lastPayload namePayload toks).getD info0.name) ∧
    (∀ (toks : List Tok) (info0 info : Info),
      (∀ tok ∈ toks, attrsKeyOf tok ≠ some "id") →
      toks.foldlM applyTok info0 = .ok info →
      info.attrs.lookup "id" =
        (match lastPayload idPayload toks with
         | some i => some (.eq i)
         | none => info0.attrs.lookup "id")) ∧
    parseElement "a#x[0]#y[1]b" true = .ok ⟨[("id", .eq "y")], "b", true, some 1⟩ :=
  ⟨fun toks i0 i h => foldlM_name toks i0 i h,
   fun toks i0 i h1 h2 => foldlM_id toks i0 i h1 h2, rfl⟩

/-- Witness for C7: on the token sequence of `a#x[0]#y[1]b`, the final name
is `b` and the final id is `y`. -/
theorem c7_last_wins_witness :
    ({ attrs := [("id", AttrVal.eq "y")], name := "b", recursive := true,
       rank := some 1 } : Info).name =
      (lastPayload namePayload
        [Tok.name "a", Tok.id "x", Tok.rank 0, Tok.id "y", Tok.rank 1,
         Tok.name "b"]).getD "" ∧
    ({ attrs := [("id", AttrVal.eq "y")], name := "b", recursive := true,
       rank := some 1 } : Info).attrs.lookup "id" =
      (match lastPayload idPayload
          [Tok.name "a", Tok.id "x", Tok.rank 0, Tok.id "y", Tok.rank 1,
           Tok.name "b"] with
       | some i => some (.eq i)
       | none => (List.lookup "id" [])) :=
  ⟨c7_last_wins.1
     [Tok.name "a", Tok.id "x", Tok.rank 0, Tok.id "y", Tok.rank 1, Tok.name "b"]
     ⟨[], "", true, none⟩ ⟨[("id", .eq "y")], "b", true, some 1⟩ rfl,
   c7_last_wins.2.1
     [Tok.name "a", Tok.id "x", Tok.rank 0, Tok.id "y", Tok.rank 1, Tok.name "b"]
     ⟨[], "", true, none⟩ ⟨[("id", .eq "y")], "b", true, some 1⟩ (by decide) rfl⟩

/-- C8: invoking the compiler with a non-string input fails with the
TypeMismatch kind (`TypeError`), before any parsing: the call is fatal and
no partial chain is produced (the result is the bare error, not a chain). -/
theorem c8_type_mismatch (d : String) :
    patternInit (.nonStr d) = .error PyErr.typeError := rfl

/-- C9: matching is a pure, deterministic, restartable query.  The lazy
generator protocol is modelled as an explicit frame-stack iterator (the
shape the spec's design notes prescribe); two independent runs of the
iterator from the same chain and root — with any sufficient fuel — produce
the identical ordered sequence, which moreover equals the recursive
matcher's result.  The iterator state contains only its own frames: the
chain and the tree (with `find_children` modelled from the spec as a pure
function) are never written. -/
theorem c9_deterministic (this : Info) (rest : List Info) (root : Node) (n m : Nat)
    (hn : stackCost (initFrames this rest root) ≤ n)
    (hm : stackCost (initFrames this rest root) ≤ m) :
    runIter n (initFrames this rest root) = runIter m (initFrames this rest root) ∧
    runIter n (initFrames this rest root) = updateAux this rest root := by
  have e1 := runIter_sem n (initFrames this rest root) hn
  have e2 := runIter_sem m (initFrames this rest root) hm
  have e3 : updateAux this rest root = (initFrames this rest root).flatMap frameSem := by
    rw [updateAux_sem]
    simp [initFrames, frameSem]
  exact ⟨by rw [e1, e2], by rw [e1, ← e3]⟩

/-- Witness for C9: two runs with different sufficient fuels over the demo
list coincide and equal the recursive matcher. -/
theorem c9_deterministic_witness :
    runIter 50 (initFrames ⟨[], "li", true, none⟩ [] demoUl) =
      runIter 9 (initFrames ⟨[], "li", true, none⟩ [] demoUl) ∧
    runIter 50 (initFrames ⟨[], "li", true, none⟩ [] demoUl) =
      updateAux ⟨[], "li", true, none⟩ [] demoUl :=
  c9_deterministic ⟨[], "li", true, none⟩ [] demoUl 50 9 (by decide) (by decide)

/-- C10: processing of an attrs sub-token removes every single-quote,
double-quote and square-bracket character occurring anywhere in the token
(not only the delimiters) and splits the remainder on the first `=` only:
when a value is produced, the stripped token is exactly `key = value` with
the key `=`-free and both halves quote- and bracket-free, so everything
after the first `=` — further `=` included — survives into the value.
Concretely, `[k="a"b"]` compiles to the equality `k = ab` (the embedded
quote is silently dropped) and `[k=a=b]` to `k = a=b`. -/
theorem c10_attr_processing :
    (∀ (t k v : String), processAttrToken t = (k, some v) →
      (stripQB t).toList = k.toList ++ '=' :: v.toList ∧
      (∀ c ∈ k.toList, c ≠ '=') ∧
      (∀ c ∈ (stripQB t).toList, (isQuote c || c == '[' || c == ']') = false)) ∧
    (∀ (t k : String), processAttrToken t = (k, none) →
      stripQB t = k ∧ ∀ c ∈ k.toList, c ≠ '=') ∧
    parseElement "[k=\"a\"b\"]" true = .ok ⟨[("k", .eq "ab")], "", true, none⟩ ∧
    parseElement "[k=a=b]" true = .ok ⟨[("k", .eq "a=b")], "", true, none⟩ := by
  refine ⟨?_, ?_, rfl, rfl⟩
  · intro t k v h
    unfold processAttrToken splitEq1 at h
    rw [List.span_eq_take_drop] at h
    cases hd : (stripQB t).toList.dropWhile (fun c => c != '=') with
    | nil =>
      simp only [hd, Prod.mk.injEq] at h
      exact Option.noConfusion h.2
    | cons d v' =>
      simp only [hd, Prod.mk.injEq, Option.some.injEq] at h
      obtain ⟨hk, hv⟩ := h
      have hdeq : d = '=' := by
        simpa using dropWhile_head_false (fun c => c != '=') _ d v' hd
      refine ⟨?_, ?_, ?_⟩
      · rw [← hk, ← hv]
        have := List.takeWhile_append_dropWhile
          (p := fun c => c != '=') (l := (stripQB t).toList)
        rw [hd, hdeq] at this
        exact this.symm
      · intro c hc
        rw [← hk] at hc
        simpa using List.mem_takeWhile_imp hc
      · intro c hc
        simp only [stripQB] at hc
        simpa using List.of_mem_filter hc
  · intro t k h
    unfold processAttrToken splitEq1 at h
    rw [List.span_eq_take_drop] at h
    cases hd : (stripQB t).toList.dropWhile (fun c => c != '=') with
    | cons d v' =>
      simp only [hd, Prod.mk.injEq] at h
      exact Option.noConfusion h.2
    | nil =>
      simp only [hd, Prod.mk.injEq] at h
      obtain ⟨hk, -⟩ := h
      have hl : (stripQB t).toList =
          List.takeWhile (fun c => c != '=') (stripQB t).toList := by
        conv_lhs => rw [← List.takeWhile_append_dropWhile
            (p := fun c => c != '=') (l := (stripQB t).toList)]
        rw [hd, List.append_nil]
      constructor
      · calc stripQB t = ⟨(stripQB t).toList⟩ := rfl
          _ = ⟨List.takeWhile (fun c => c != '=') (stripQB t).toList⟩ := by rw [← hl]
          _ = k := hk
      · intro c hc
        rw [← hk] at hc
        simpa using List.mem_takeWhile_imp hc

/-- Witness for C10: on the token `[k=a=b]`, the stripped text splits as
key `k` and value `a=b`. -/
theorem c10_attr_processing_witness :
    (stripQB "[k=a=b]").toList = "k".toList ++ '=' :: "a=b".toList ∧
    (∀ c ∈ "k".toList, c ≠ '=') ∧
    (∀ c ∈ (stripQB "[k=a=b]").toList, (isQuote c || c == '[' || c == ']') = false) :=
  c10_attr_processing.1 "[k=a=b]" "k" "a=b" rfl
